import Mathlib

/- Verification development for the pigeon ingestion service.

   The Python source is shallowly embedded: pure helpers become Lean
   functions on String / List Char, the filesystem becomes an association
   list from path to content, subprocess and clock interactions become
   explicit oracle parameters, and Python exceptions become Except /
   Option values mirroring the try/except structure of the source.  Each
   definition is translated from the corresponding function in the
   repository (module and function named in its doc comment). -/

namespace Pigeon

/-! ## Character and string helpers shared by several modules -/

/-- Characters removed by the sanitization regex in
    src/pigeon/drive_client.py line 45: the class matches
    the set of special characters deleted from the stem. -/
def isSpecialChar (c : Char) : Bool :=
  c == '<' || c == '>' || c == ':' || c == '"' || c == '/' ||
  c == '\\' || c == '|' || c == '?' || c == '*' || c == '(' || c == ')'

/-- Whitespace characters as matched by the regex escape for spaces in
    Python (ASCII part: space, tab, newline, carriage return, vertical
    tab, form feed). -/
def isPySpace (c : Char) : Bool :=
  c == ' ' || c == '\t' || c == '\n' || c == '\r' ||
  c == Char.ofNat 11 || c == Char.ofNat 12

/-- Index of the last occurrence of a character, or -1 when absent;
    mirrors Python str.rfind used by os.path.splitext. -/
def rfindI (c : Char) (s : List Char) : Int :=
  match s.reverse.findIdx? (fun d => d == c) with
  | none => -1
  | some k => (s.length : Int) - 1 - k

/-- Model of CPython os.path.splitext (genericpath, posix separators):
    splits at the last dot that lies after the last slash, unless every
    character between the last slash and that dot is itself a dot (a
    leading-dot filename has no extension). -/
def pySplitext (s : List Char) : List Char × List Char :=
  let sepIdx := rfindI '/' s
  let dotIdx := rfindI '.' s
  if dotIdx > sepIdx then
    let stop := dotIdx.toNat
    let start := (sepIdx + 1).toNat
    if (List.range' start (stop - start)).any (fun j => !(s.getD j '.' == '.')) then
      (s.take stop, s.drop stop)
    else (s, [])
  else (s, [])

/-- Space replacement applied to the stem in sanitize_filename
    (drive_client.py line 41). -/
def replaceSpaces (s : List Char) : List Char :=
  s.map (fun c => if c == ' ' then '-' else c)

/-- Special-character deletion applied to the stem in sanitize_filename
    (drive_client.py line 45). -/
def removeSpecial (s : List Char) : List Char :=
  s.filter (fun c => !isSpecialChar c)

/-- Stem cleanup used by sanitize_filename: spaces to hyphens, then
    delete the special characters. -/
def cleanName (s : List Char) : List Char :=
  removeSpecial (replaceSpaces s)

/-- Model of sanitize_filename (src/pigeon/drive_client.py lines 28-47):
    split off the extension, clean the stem, reattach the extension
    unchanged. -/
def sanitizeChars (s : List Char) : List Char :=
  let p := pySplitext s
  cleanName p.1 ++ p.2

/-- String-level wrapper for sanitize_filename. -/
def sanitize_filename (original : String) : String :=
  ⟨sanitizeChars original.data⟩

/-- Characters untouched by the stem cleanup: not special and not a
    space.  A string of good characters is a fixed point of cleanName. -/
def goodChar (c : Char) : Bool :=
  !isSpecialChar c && !(c == ' ')

/-! ## Python str.split with maxsplit (professionalize.py stem handling) -/

/-- Splits a character list at the first occurrence of the separator,
    returning the parts before and after; none when the separator is
    absent. -/
def splitFirst (sep : Char) : List Char → Option (List Char × List Char)
  | [] => none
  | c :: cs =>
    if c == sep then some ([], cs)
    else
      match splitFirst sep cs with
      | none => none
      | some pq => some (c :: pq.1, pq.2)

/-- Model of Python str.split(sep, maxsplit) restricted to a one-character
    separator: perform at most the given number of splits, leftmost
    first. -/
def pySplitMax (sep : Char) : Nat → List Char → List (List Char)
  | 0, s => [s]
  | m + 1, s =>
    match splitFirst sep s with
    | none => [s]
    | some pq => pq.1 :: pySplitMax sep m pq.2

/-- Joins parts with a separator, inverse of splitting. -/
def joinSep (sep : Char) : List (List Char) → List Char
  | [] => []
  | [x] => x
  | x :: xs => x ++ sep :: joinSep sep xs

/-- Model of the output-stem computation in
    ProfessionalizerProcessor.process (professionalize.py lines 74-85):
    when the stem contains an underscore it is split into at most three
    parts and re-joined with underscores; otherwise kept as is. -/
def ProfessionalizerProcessor.output_stem (stem : String) : String :=
  if stem.data.contains '_' then
    match pySplitMax '_' 2 stem.data with
    | [a, b, c] => ⟨a ++ '_' :: (b ++ '_' :: c)⟩
    | _ => stem
  else stem

/-- Candidate output file of the professionalization stage before
    collision handling (professionalize.py line 87): the computed output
    stem plus "-spec.md", in the input file's directory. -/
def ProfessionalizerProcessor.candidate_output (parent stem : String) : String :=
  parent ++ "/" ++ ProfessionalizerProcessor.output_stem stem ++ "-spec.md"

/-! ## Project detection (src/pigeon/routing/router.py) -/

/-- Characters admitted by the name groups of both detection regexes:
    lowercase ASCII letters, digits, and hyphen. -/
def isNameChar (c : Char) : Bool :=
  ('a' ≤ c && c ≤ 'z') || ('0' ≤ c && c ≤ '9') || c == '-'

/-- Strips a literal pattern from the front of the input, returning the
    remainder on success. -/
def stripLit : List Char → List Char → Option (List Char)
  | [], s => some s
  | _ :: _, [] => none
  | c :: cs, d :: ds => if c == d then stripLit cs ds else none

/-- Scans left to right for the first position where the positional
    matcher succeeds, mirroring re.search. -/
def scanFor (f : List Char → Option (List Char)) : List Char → Option (List Char)
  | [] => none
  | c :: rest =>
    match f (c :: rest) with
    | some r => some r
    | none => scanFor f rest

/-- Positional matcher for the tag regex of router.py line 76: a P or p,
    the literal "roject:", optional whitespace, then the captured
    nonempty run of name characters.  The whitespace and name classes
    are disjoint, so the greedy regex match coincides with maximal
    munch. -/
def matchTagAt (s : List Char) : Option (List Char) :=
  match s with
  | [] => none
  | c :: rest =>
    if c == 'P' || c == 'p' then
      match stripLit "roject:".data rest with
      | none => none
      | some after =>
        let nm := (after.dropWhile isPySpace).takeWhile isNameChar
        if nm.isEmpty then none else some nm
    else none

/-- Leftmost match of the tag regex, returning the captured name. -/
def findProjectTag (s : List Char) : Option (List Char) :=
  scanFor matchTagAt s

/-- Positional matcher for the mention regex of router.py line 86: an @
    followed by the captured nonempty run of name characters. -/
def matchMentionAt (s : List Char) : Option (List Char) :=
  match s with
  | [] => none
  | c :: rest =>
    if c == '@' then
      let nm := rest.takeWhile isNameChar
      if nm.isEmpty then none else some nm
    else none

/-- Leftmost match of the mention regex, returning the captured name. -/
def findMention (s : List Char) : Option (List Char) :=
  scanFor matchMentionAt s

/-- Contiguous-substring test on character lists. -/
def isSubChars (needle : List Char) : List Char → Bool
  | [] => needle.isEmpty
  | c :: cs => List.isPrefixOf needle (c :: cs) || isSubChars needle cs

/-- Substring test used by pattern 3 of detect_project (the Python
    expression testing membership of the project name in the file
    name). -/
def isSubstrOf (needle hay : String) : Bool :=
  isSubChars needle.data hay.data

/-- Pattern 3 of detect_project (router.py lines 94-97): first project
    in registry order whose name occurs inside the file name. -/
def detectByFilename (cache : List String) (fileName : String) : Option String :=
  cache.find? (fun nm => isSubstrOf nm fileName)

/-- Continuation of detect_project after the tag pattern has not
    produced a registered name (router.py lines 86-100): the mention
    pattern, falling through to the filename pattern when its match is
    absent or unregistered. -/
def detectAfterTag (cache : List String) (window : List Char)
    (fileName : String) : Option String :=
  match findMention window with
  | some n =>
    if cache.contains (String.mk n) then some (String.mk n)
    else detectByFilename cache fileName
  | none => detectByFilename cache fileName

/-- Model of ProjectRouter.detect_project (router.py lines 53-104).  The
    file argument is the file's content, none when the file does not
    exist (the source then returns None); reading is limited to the
    first 500 characters.  The tag pattern's first match, when
    registered, wins; an unregistered tag match merely logs a warning
    and control continues with the mention pattern. -/
def ProjectRouter.detect_project (cache : List String) (file : Option String)
    (fileName : String) : Option String :=
  match file with
  | none => none
  | some content =>
    let window := content.data.take 500
    match findProjectTag window with
    | some n =>
      if cache.contains (String.mk n) then some (String.mk n)
      else detectAfterTag cache window fileName
    | none => detectAfterTag cache window fileName

/-- Rule (1) of the specification's detection order, written from the
    spec's words: a Project:/project: tag whose captured
    lowercase-alphanumeric-hyphen name is in the registry, read from the
    500-character window. -/
def specRule1 (cache : List String) (window : List Char) : Option String :=
  match findProjectTag window with
  | some n => if cache.contains (String.mk n) then some (String.mk n) else none
  | none => none

/-- Rule (2) of the specification's detection order, written from the
    spec's words: an @ mention matching a registered project in the same
    window. -/
def specRule2 (cache : List String) (window : List Char) : Option String :=
  match findMention window with
  | some n => if cache.contains (String.mk n) then some (String.mk n) else none
  | none => none

/-- Rule (3) of the specification's detection order, written from the
    spec's words: any registered project name occurring as a substring
    of the spec file's filename. -/
def specRule3 (cache : List String) (fileName : String) : Option String :=
  cache.find? (fun nm => isSubstrOf nm fileName)

/-- Detection as the specification words it: the three rules applied in
    order, first match winning. -/
def specDetect (cache : List String) (content fileName : String) : Option String :=
  match specRule1 cache (content.data.take 500) with
  | some nm => some nm
  | none =>
    match specRule2 cache (content.data.take 500) with
    | some nm => some nm
    | none => specRule3 cache fileName

/-! ## Poller state tracking (src/pigeon/poller.py) -/

/-- Value stored per remote identifier in the poller's durable state
    (poller.py lines 110-113). -/
structure DownloadRecord where
  original_name : String
  downloaded_at : String
deriving DecidableEq, Repr

/-- Poller state: the insertion-ordered mapping from remote file id to
    its download record (a Python dict). -/
abbrev PollerState := List (String × DownloadRecord)

/-- Keys of the poller state, in insertion order. -/
def pkeys (st : PollerState) : List String :=
  st.map (fun e => e.1)

/-- Python dict assignment: replace the value in place when the key is
    present, append otherwise. -/
def dictInsert (st : PollerState) (k : String) (v : DownloadRecord) : PollerState :=
  if st.any (fun e => e.1 == k) then
    st.map (fun e => if e.1 == k then (k, v) else e)
  else st ++ [(k, v)]

/-- Metadata of a remote file as listed by the drive client (the id and
    name fields used by the poller). -/
structure DriveFile where
  id : String
  name : String
deriving DecidableEq, Repr

/-- Model of Poller._download_file (poller.py lines 81-120).  The dlOk
    oracle abstracts whether the body of the try block (timestamped
    destination computation plus the drive download) succeeds for the
    given file id; a download is issued either way, the state gains the
    id only on success, and on failure the exception is caught and the
    state is left unchanged.  The second component records the download
    issued. -/
def Poller.download_file (dlOk : String → Bool) (now : String)
    (st : PollerState) (f : DriveFile) : PollerState × List String :=
  if dlOk f.id then (dictInsert st f.id ⟨f.name, now⟩, [f.id])
  else (st, [f.id])

/-- Accumulating step of the download loop in Poller._poll_once. -/
def pollStep (dlOk : String → Bool) (now : String)
    (acc : PollerState × List String) (f : DriveFile) : PollerState × List String :=
  let r := Poller.download_file dlOk now acc.1 f
  (r.1, acc.2 ++ r.2)

/-- Model of Poller._poll_once (poller.py lines 56-79).  The listing is
    none when list_folder_files raises (the cycle-level except then
    leaves the state untouched and issues nothing); otherwise the files
    whose id is not a key of the state at the start of the cycle are
    downloaded in order.  Returns the updated state and the ids for
    which a download was issued. -/
def Poller.poll_once (dlOk : String → Bool) (now : String)
    (st : PollerState) (listing : Option (List DriveFile)) :
    PollerState × List String :=
  match listing with
  | none => (st, [])
  | some files =>
    let downloadedIds := pkeys st
    let newFiles := files.filter (fun f => !downloadedIds.contains f.id)
    newFiles.foldl (pollStep dlOk now) (st, [])

/-- Observable events of the poller loop: a completed poll cycle, and a
    state persist. -/
inductive PollerEv where
  | cycle
  | save
deriving DecidableEq, Repr

/-- Model of Poller.start (poller.py lines 36-54) as the event trace it
    produces.  Each schedule entry says whether a termination signal
    arrives during that cycle's sleep; the signal handler calls stop,
    which saves state, the while condition then fails, and the finally
    block calls stop again, saving a second time.  No save is performed
    between cycles.  An exhausted schedule means the loop is still
    running and no further events have been observed. -/
def Poller.startRun : List Bool → List PollerEv
  | [] => []
  | sig :: rest =>
    PollerEv.cycle ::
      (if sig then [PollerEv.save, PollerEv.save] else Poller.startRun rest)

/-- Trace property asserted by the specification sentence that state is
    persisted to durable storage after every poll cycle: each cycle
    event is immediately followed by a save event. -/
def savedAfterEachCycle : List PollerEv → Bool
  | [] => true
  | PollerEv.cycle :: rest =>
    match rest with
    | PollerEv.save :: _ => savedAfterEachCycle rest
    | _ => false
  | PollerEv.save :: rest => savedAfterEachCycle rest

/-- Durable storage touched by Poller._save_state: the state file and
    the temporary file next to it. -/
structure StateFS where
  stateFile : Option String
  tempFile : Option String
deriving DecidableEq, Repr

/-- Point at which a crash interrupts Poller._save_state: before the
    temporary file is written, after it is written but before the
    rename, or not at all. -/
inductive CrashPoint where
  | beforeWrite
  | afterWrite
  | done
deriving DecidableEq, Repr

/-- Model of Poller._save_state (poller.py lines 142-161): the
    serialized state is written to the temporary file, which is then
    renamed over the state file in one atomic step; the state file
    itself is only ever touched by that rename. -/
def Poller.save_state (payload : String) (fs : StateFS) (cp : CrashPoint) : StateFS :=
  match cp with
  | CrashPoint.beforeWrite => fs
  | CrashPoint.afterWrite => { fs with tempFile := some payload }
  | CrashPoint.done => { stateFile := some payload, tempFile := none }

/-! ## Processing pipeline (src/pigeon/processors/pipeline.py) -/

/-- Outcome of one processor call: a produced output path, a clean
    decline (the Python None return), or a raised exception with its
    text. -/
inductive PResult where
  | ok (out : String)
  | declined
  | raised (msg : String)

/-- Stage record appended to a history entry after a processor call
    returns (pipeline.py lines 65-72). -/
structure StageRecord where
  processor : String
  status : String
  input : String
  output : Option String
deriving DecidableEq, Repr

/-- History entry of one ProcessingPipeline.process invocation
    (pipeline.py lines 53-58; the wall-clock timestamp field is
    omitted).  The output field is set only on overall success, the
    error field only on an uncaught exception. -/
structure HistoryEntry where
  input : String
  stages : List StageRecord
  status : String
  error : Option String
  output : Option String
deriving DecidableEq, Repr

/-- Result of running the processor loop of pipeline.py lines 60-93:
    accumulated stage records, overall status, optional error text, and
    the final output.  A raised exception is caught before the stage
    record for the raising processor is appended. -/
structure PipeOutcome where
  stages : List StageRecord
  status : String
  error : Option String
  output : Option String
deriving DecidableEq, Repr

/-- The processor loop of ProcessingPipeline.process: run each named
    processor on the current file, record a stage entry per returned
    result, stop at the first decline with overall status failed, catch
    a raise with overall status error, and otherwise finish with
    success. -/
def runStages : List (String × (String → PResult)) → String → List StageRecord →
    PipeOutcome
  | [], cur, recs => ⟨recs, "success", none, some cur⟩
  | (nm, f) :: rest, cur, recs =>
    match f cur with
    | PResult.ok out =>
      runStages rest out (recs ++ [⟨nm, "success", cur, some out⟩])
    | PResult.declined =>
      ⟨recs ++ [⟨nm, "failed", cur, none⟩], "failed", none, none⟩
    | PResult.raised msg => ⟨recs, "error", some msg, none⟩

/-- Model of ProcessingPipeline.process (pipeline.py lines 39-93).  The
    file-existence check is an oracle on paths; when it fails the call
    returns None without touching the history.  Otherwise the processor
    loop runs and exactly one entry is appended, whatever the stages
    do. -/
def ProcessingPipeline.process (exists? : String → Bool)
    (procs : List (String × (String → PResult))) (filePath : String)
    (history : List HistoryEntry) : Option String × List HistoryEntry :=
  if exists? filePath then
    let o := runStages procs filePath []
    (o.output, history ++ [⟨filePath, o.stages, o.status, o.error, o.output⟩])
  else (none, history)

/-! ## Slack message conversion (src/pigeon/sources/slack.py) -/

/-- Python str.strip restricted to ASCII whitespace. -/
def pyStrip (s : String) : String :=
  ⟨((s.data.dropWhile isPySpace).reverse.dropWhile isPySpace).reverse⟩

/-- Fields of a Slack message object read by _message_to_file: the
    optional author, the optional thread anchor, the own timestamp, and
    the text (defaulted to empty by message.get). -/
structure SlackMsg where
  user : Option String
  thread_ts : Option String
  ts : String
  text : String
deriving DecidableEq, Repr

/-- Model of SlackSource._is_authorized (slack.py lines 167-180): bot
    author ids (B prefix) are rejected, otherwise membership in the
    authorized set decides. -/
def SlackSource.is_authorized (authorized : List String) (userId : String) : Bool :=
  if userId.startsWith "B" then false
  else authorized.contains userId

/-- The SourceFile record produced for an accepted message (slack.py
    lines 263-268), with its metadata mapping. -/
structure SrcFile where
  path : String
  source : String
  timestamp : String
  metadata : List (String × String)
deriving DecidableEq, Repr

/-- Model of SlackSource._message_to_file (slack.py lines 182-268).
    The userRealName oracle models the cached users_info lookup, fmtIso
    and fmtSafe model the two datetime renderings of the message
    timestamp, and writeOk models whether write_text succeeds (an OSError
    is caught and None returned).  The second component lists the files
    written to the inbox with their content. -/
def SlackSource.message_to_file (authorized : List String) (inboxDir : String)
    (userRealName fmtIso fmtSafe : String → String)
    (msg : SlackMsg) (channelId channelName : String)
    (writeOk : Bool) : Option SrcFile × List (String × String) :=
  match msg.user with
  | none => (none, [])
  | some userId =>
    if userId.isEmpty || !SlackSource.is_authorized authorized userId then
      (none, [])
    else if (match msg.thread_ts with
             | some tts => tts != msg.ts
             | none => false) then (none, [])
    else
      let text := pyStrip msg.text
      if text == "" then (none, [])
      else
        let userName := userRealName userId
        let timestamp := fmtIso msg.ts
        let content := "# Slack Message\n\n**Date:** " ++ timestamp ++
          "\n**Channel:** #" ++ channelName ++ "\n**User:** " ++ userName ++
          " (" ++ userId ++ ")\n**Source:** slack\n\n---\n\n" ++ text ++ "\n"
        let sanitizedUser :=
          (String.mk (userName.data.map (fun c => if c == ' ' then '-' else c))).toLower
        let filename := fmtSafe msg.ts ++ "-slack-" ++ sanitizedUser ++ ".md"
        let filePath := inboxDir ++ "/" ++ filename
        if writeOk then
          (some ⟨filePath, "slack", timestamp,
            [("source", "slack"), ("channel", channelId),
             ("channel_name", channelName), ("user_id", userId),
             ("user_name", userName), ("message_ts", msg.ts),
             ("thread_reply", if msg.thread_ts.isSome then "True" else "False")]⟩,
           [(filePath, content)])
        else (none, [])

/-! ## Filesystem model for the routing processor -/

/-- Filesystem objects as an association list from absolute path to
    content; marker directories such as .beads appear as entries with
    empty content. -/
abbrev FS := List (String × String)

/-- Path.exists on the model. -/
def fsExists (fs : FS) (p : String) : Bool :=
  fs.any (fun e => e.1 == p)

/-- Reading a file's content; none when the path is absent. -/
def fsRead (fs : FS) (p : String) : Option String :=
  (fs.find? (fun e => e.1 == p)).map (fun e => e.2)

/-- Writing a file: overwrite in place when present, create otherwise. -/
def fsWrite : FS → String → String → FS
  | [], p, c => [(p, c)]
  | e :: rest, p, c =>
    if e.1 == p then (p, c) :: rest else e :: fsWrite rest p c

/-- Deleting a path. -/
def fsRemove (fs : FS) (p : String) : FS :=
  fs.filter (fun e => !(e.1 == p))

/-- shutil.copy2 on the model: duplicate the source's content at the
    destination (no-op when the source is absent). -/
def fsCopy (fs : FS) (src dst : String) : FS :=
  match fsRead fs src with
  | some c => fsWrite fs dst c
  | none => fs

/-- shutil.move on the model: copy then delete the source. -/
def fsMove (fs : FS) (src dst : String) : FS :=
  fsRemove (fsCopy fs src dst) src

/-- Joining a directory and a file name with a slash. -/
def pjoin (dir nm : String) : String :=
  dir ++ "/" ++ nm

/-- pathlib Path.name: the part after the last slash. -/
def baseName (p : String) : String :=
  ⟨(p.data.reverse.takeWhile (fun c => !(c == '/'))).reverse⟩

/-- pathlib Path.suffix: the extension of the final component, empty
    when the only dot leads the name or ends it. -/
def pathSuffix (p : String) : String :=
  let nm := (baseName p).data
  let i := rfindI '.' nm
  if 0 < i ∧ i < (nm.length : Int) - 1 then ⟨nm.drop i.toNat⟩ else ""

/-- pathlib Path.stem: the final component without its suffix. -/
def pathStem (p : String) : String :=
  let nm := (baseName p).data
  let i := rfindI '.' nm
  if 0 < i ∧ i < (nm.length : Int) - 1 then ⟨nm.take i.toNat⟩ else ⟨nm⟩

/-- The collision loop of routing.py lines 72-77 and 86-91, from a given
    counter, with fuel bounding the unbounded Python loop; none models
    nontermination within the fuel. -/
def collisionFrom (fs : FS) (dir stem sfx : String) : Nat → Nat → Option String
  | 0, _ => none
  | fuel + 1, counter =>
    let cand := pjoin dir (stem ++ "_" ++ toString counter ++ sfx)
    if fsExists fs cand then collisionFrom fs dir stem sfx fuel (counter + 1)
    else some cand

/-- Destination choice with collision avoidance: the plain name when
    free, otherwise the first free counter-suffixed name. -/
def chooseFree (fs : FS) (dir nm stem sfx : String) (fuel : Nat) : Option String :=
  let first := pjoin dir nm
  if fsExists fs first then collisionFrom fs dir stem sfx fuel 1
  else some first

/-! ## Routing processor and bead creation
    (src/pigeon/processors/routing.py, src/pigeon/routing/bead_creator.py) -/

/-- Router environment: the hentown root path and the discovered project
    registry in insertion order (name, absolute path). -/
structure RouterEnv where
  hentown_root : String
  cache : List (String × String)

/-- Registered project names in registry order. -/
def RouterEnv.names (env : RouterEnv) : List String :=
  env.cache.map (fun e => e.1)

/-- The Python idiom shared by get_inbox_path, get_archive_path, and
    RoutingProcessor.process lines 60-63: a truthy registered project
    name selects its cached path, anything else the hentown root. -/
def projectPathFor (env : RouterEnv) (pn : Option String) : String :=
  match pn with
  | some n =>
    if !n.isEmpty then
      match env.cache.find? (fun e => e.1 == n) with
      | some e => e.2
      | none => env.hentown_root
    else env.hentown_root
  | none => env.hentown_root

/-- Model of ProjectRouter.get_inbox_path (router.py lines 106-122); the
    mkdir call has no observable effect in the model. -/
def ProjectRouter.get_inbox_path (env : RouterEnv) (pn : Option String) : String :=
  projectPathFor env pn ++ "/dev_notes/inbox"

/-- Model of ProjectRouter.get_archive_path (router.py lines 124-140). -/
def ProjectRouter.get_archive_path (env : RouterEnv) (pn : Option String) : String :=
  projectPathFor env pn ++ "/dev_notes/inbox-archive"

/-- Outcome of the subprocess.run call made by BeadCreator.create: a
    completed process with exit code and output streams, a timeout, an
    absent executable, or another raised error. -/
inductive SubprocResult where
  | completed (exitCode : Nat) (stdout stderr : String)
  | timeout
  | notFound
  | raisedOther (msg : String)
deriving DecidableEq, Repr

/-- Python exceptions distinguished by the except clauses of the bead
    code. -/
inductive PyExc where
  | timeoutExpired
  | fileNotFound
  | other (msg : String)
deriving DecidableEq, Repr

/-- subprocess.run in the exception monad: a completed process returns
    its code and streams, everything else raises. -/
def runBead (r : SubprocResult) : Except PyExc (Nat × String × String) :=
  match r with
  | SubprocResult.completed code out err => Except.ok (code, out, err)
  | SubprocResult.timeout => Except.error PyExc.timeoutExpired
  | SubprocResult.notFound => Except.error PyExc.fileNotFound
  | SubprocResult.raisedOther m => Except.error (PyExc.other m)

/-- Splitting a character list at every character satisfying the
    predicate (Python str.split with an explicit separator when the
    predicate tests one character). -/
def splitByPred (p : Char → Bool) : List Char → List (List Char)
  | [] => [[]]
  | c :: cs =>
    match splitByPred p cs with
    | [] => [[]]
    | h :: t => if p c then [] :: h :: t else (c :: h) :: t

/-- Python str.split() with no argument: whitespace-delimited words,
    empties dropped. -/
def pyWords (s : List Char) : List (List Char) :=
  (splitByPred isPySpace s).filter (fun w => !w.isEmpty)

/-- Model of the bead-id scrape of bead_creator.py lines 89-102: on the
    lines of stdout plus stderr that mention a created issue, the first
    whitespace-separated token with a known project prefix is the id;
    otherwise the generic sentinel. -/
def extractBeadId (output : String) : String :=
  let ls := splitByPred (fun c => c == '\n') output.data
  let matching := ls.filter (fun l =>
    isSubChars "Created issue".data l || isSubChars "✓".data l)
  match matching.findSome? (fun l =>
    (pyWords l).find? (fun w =>
      List.isPrefixOf "hentown-".data w || List.isPrefixOf "pigeon-".data w)) with
  | some w => ⟨w⟩
  | none => "created"

/-- Model of BeadCreator.create (bead_creator.py lines 39-113): skip
    without the marker directory or the spec file; run the CLI; exit
    code zero yields the scraped id, a nonzero exit yields None, and
    both the timeout and every other exception are caught and yield
    None.  The result is in the exception monad to record that no
    exception escapes. -/
def BeadCreator.create (fs : FS) (project_path spec_file title description : String)
    (run : SubprocResult) : Except PyExc (Option String) :=
  if !fsExists fs (pjoin project_path ".beads") then Except.ok none
  else if !fsExists fs spec_file then Except.ok none
  else
    let _cmd := ["bd", "create", "--title=" ++ title,
      "--description=" ++ (if description.isEmpty then "Auto-generated from pigeon" else description),
      "--type=task", "--priority=2"]
    match runBead run with
    | Except.ok (code, out, err) =>
      if code == 0 then Except.ok (some (extractBeadId (out ++ err)))
      else Except.ok none
    | Except.error PyExc.timeoutExpired => Except.ok none
    | Except.error _ => Except.ok none

/-- The first line of a file as f.readline() returns it, without the
    trailing newline that the subsequent strip removes anyway. -/
def takeFirstLine (s : String) : String :=
  ⟨s.data.takeWhile (fun c => !(c == '\n'))⟩

/-- The title-and-description pair handed to BeadCreator.create. -/
structure BeadRequest where
  title : String
  description : String
deriving DecidableEq, Repr

/-- Title generated by RoutingProcessor._create_bead_for_spec
    (routing.py line 136). -/
def beadTitleFor (spec_file : String) : String :=
  "Process inbox item: " ++ pathStem spec_file

/-- Description generated by RoutingProcessor._create_bead_for_spec
    (routing.py lines 139-144): the first line of the spec, stripped and
    truncated to 100 characters, with the generated fallback when that
    line strips to empty or the file cannot be read. -/
def beadDescriptionFor (fs : FS) (spec_file source : String) : String :=
  match fsRead fs spec_file with
  | some content =>
    let firstLine := pyStrip (takeFirstLine content)
    if firstLine.isEmpty then "Auto-generated from pigeon (" ++ source ++ ")"
    else ⟨firstLine.data.take 100⟩
  | none => "Auto-generated from pigeon (" ++ source ++ ")"

/-- Model of RoutingProcessor._create_bead_for_spec (routing.py lines
    113-154), returning the bead id and, for observation, the request
    actually handed to BeadCreator.create (none when skipped for a
    missing marker directory). -/
def RoutingProcessor.create_bead_for_spec (fs : FS)
    (project_path spec_file source : String) (run : SubprocResult) :
    Except PyExc (Option String × Option BeadRequest) :=
  if !fsExists fs (pjoin project_path ".beads") then Except.ok (none, none)
  else
    match BeadCreator.create fs project_path spec_file (beadTitleFor spec_file)
        (beadDescriptionFor fs spec_file source) run with
    | Except.ok v =>
      Except.ok (v, some ⟨beadTitleFor spec_file, beadDescriptionFor fs spec_file source⟩)
    | Except.error e => Except.error e

/-- Model of RoutingProcessor.process (routing.py lines 36-111).  The
    outer option is fuel exhaustion of a collision loop (the Python loop
    would simply not terminate); the inner triple is the returned routed
    path (None on failure), the filesystem, and the observed bead
    request.  A missing spec file returns None up front; an exception
    escaping the bead step would be caught by the processor's except
    clause and turn the result into None, after the copy and archive
    effects have already happened. -/
def RoutingProcessor.process (env : RouterEnv) (fuel : Nat) (fs : FS)
    (spec_file source : String) (run : SubprocResult) :
    Option (Option String × FS × Option BeadRequest) :=
  if !fsExists fs spec_file then some (none, fs, none)
  else
    let project_name :=
      ProjectRouter.detect_project env.names (fsRead fs spec_file) (baseName spec_file)
    let target_project := projectPathFor env project_name
    let target_inbox := ProjectRouter.get_inbox_path env project_name
    match chooseFree fs target_inbox (baseName spec_file) (pathStem spec_file)
        (pathSuffix spec_file) fuel with
    | none => none
    | some target_spec_path =>
      let fs1 := fsCopy fs spec_file target_spec_path
      let hentown_archive := ProjectRouter.get_archive_path env none
      match chooseFree fs1 hentown_archive (baseName spec_file) (pathStem spec_file)
          (pathSuffix spec_file) fuel with
      | none => none
      | some archived_path =>
        let fs2 := fsMove fs1 spec_file archived_path
        match RoutingProcessor.create_bead_for_spec fs2 target_project
            target_spec_path source run with
        | Except.ok br => some (some target_spec_path, fs2, br.2)
        | Except.error _ => some (none, fs2, none)

/-- Description rule as claim C7 words it: the first non-empty line of
    the spec, truncated to 100 characters, with the fallback only when
    the spec has no non-empty line at all or cannot be read. -/
def claimDescription (file : Option String) (source : String) : String :=
  match file with
  | some content =>
    match (splitByPred (fun c => c == '\n') content.data).find?
        (fun l => !(pyStrip ⟨l⟩).isEmpty) with
    | some l => ⟨(pyStrip ⟨l⟩).data.take 100⟩
    | none => "Auto-generated from pigeon (" ++ source ++ ")"
  | none => "Auto-generated from pigeon (" ++ source ++ ")"

end Pigeon

namespace Pigeon

/-! ## Theorems -/

theorem splitext_append (s : List Char) :
    (pySplitext s).1 ++ (pySplitext s).2 = s := by
  unfold pySplitext
  dsimp only
  split
  · split
    · exact List.take_append_drop _ s
    · simp
  · simp

theorem mem_cleanName_good {c : Char} {xs : List Char}
    (h : c ∈ cleanName xs) : goodChar c = true := by
  unfold cleanName removeSpecial replaceSpaces at h
  rcases List.mem_filter.mp h with ⟨hmap, hspec⟩
  rcases List.mem_map.mp hmap with ⟨a, _, ha⟩
  by_cases hsp : a == ' '
  · rw [if_pos hsp] at ha
    subst ha
    decide
  · rw [if_neg hsp] at ha
    subst ha
    unfold goodChar
    rw [hspec]
    simpa using hsp

theorem cleanName_of_good {xs : List Char}
    (h : ∀ c ∈ xs, goodChar c = true) : cleanName xs = xs := by
  unfold cleanName removeSpecial replaceSpaces
  rw [List.map_congr_left (fun c hc => ?_), List.map_id]
  · apply List.filter_eq_self.mpr
    intro c hc
    have := h c hc
    unfold goodChar at this
    exact (Bool.and_eq_true _ _).mp this |>.1
  · have := h c hc
    unfold goodChar at this
    have hns := (Bool.and_eq_true _ _).mp this |>.2
    simp only [Bool.not_eq_true'] at hns
    rw [if_neg (by simp [hns])]
    rfl

theorem sanitizeChars_fixed {s : List Char}
    (h : ∀ c ∈ s, goodChar c = true) : sanitizeChars s = s := by
  show cleanName (pySplitext s).1 ++ (pySplitext s).2 = s
  have h1 : ∀ c ∈ (pySplitext s).1, goodChar c = true := by
    intro c hc
    exact h c (by rw [← splitext_append s]; exact List.mem_append_left _ hc)
  rw [cleanName_of_good h1]
  exact splitext_append s

theorem sanitizeChars_good {s : List Char} :
    ∀ c ∈ sanitizeChars s, goodChar c = true ∨ c ∈ (pySplitext s).2 := by
  intro c hc
  unfold sanitizeChars at hc
  rcases List.mem_append.mp hc with h1 | h2
  · exact Or.inl (mem_cleanName_good h1)
  · exact Or.inr h2

/-- C8 counterexample: sanitization is not idempotent.  For the filename
    "(.t xt" the extension split keeps ".t xt" as extension (the stem
    "(" is deleted entirely), so one application yields ".t xt"; a second
    application sees a leading-dot name with no extension and replaces
    the space, yielding ".t-xt". -/
theorem sanitize_filename_not_idempotent :
    sanitize_filename (sanitize_filename "(.t xt") ≠ sanitize_filename "(.t xt" := by
  decide

/-- C8 (amended): sanitization is idempotent for every filename whose
    extension part (as split off by os.path.splitext) contains no spaces
    and no special characters; in particular for every filename whose
    extension is clean, a second application returns the same name. -/
theorem sanitize_filename_idempotent_of_clean_ext (s : String)
    (h : ∀ c ∈ (pySplitext s.data).2, goodChar c = true) :
    sanitize_filename (sanitize_filename s) = sanitize_filename s := by
  unfold sanitize_filename
  apply congrArg String.mk
  show sanitizeChars (sanitizeChars s.data) = sanitizeChars s.data
  apply sanitizeChars_fixed
  intro c hc
  rcases sanitizeChars_good c hc with hg | he
  · exact hg
  · exact h c he

/-- Witness for the amended C8 theorem at the concrete filename
    "My File(1).txt", whose extension ".txt" is clean. -/
theorem sanitize_filename_idempotent_witness :
    sanitize_filename (sanitize_filename "My File(1).txt") =
      sanitize_filename "My File(1).txt" :=
  sanitize_filename_idempotent_of_clean_ext "My File(1).txt" (by decide)

theorem splitFirst_eq (sep : Char) :
    ∀ s p q, splitFirst sep s = some (p, q) → p ++ sep :: q = s := by
  intro s
  induction s with
  | nil => intro p q h; simp [splitFirst] at h
  | cons c cs ih =>
    intro p q h
    unfold splitFirst at h
    by_cases hc : c == sep
    · rw [if_pos hc] at h
      injection h with h
      injection h with h1 h2
      subst h1; subst h2
      have hcs : c = sep := by simpa using hc
      simp [hcs]
    · rw [if_neg hc] at h
      cases hsf : splitFirst sep cs with
      | none => rw [hsf] at h; exact absurd h (by simp)
      | some pq =>
        rw [hsf] at h
        injection h with h
        injection h with h1 h2
        subst h1; subst h2
        have := ih pq.1 pq.2 (by rw [hsf])
        simpa using this

theorem pySplitMax_ne_nil (sep : Char) (m : Nat) (s : List Char) :
    pySplitMax sep m s ≠ [] := by
  cases m with
  | zero => simp [pySplitMax]
  | succ m =>
    unfold pySplitMax
    cases splitFirst sep s <;> simp

theorem joinSep_pySplitMax (sep : Char) (m : Nat) :
    ∀ s, joinSep sep (pySplitMax sep m s) = s := by
  induction m with
  | zero => intro s; rfl
  | succ m ih =>
    intro s
    unfold pySplitMax
    cases hsf : splitFirst sep s with
    | none => rfl
    | some pq =>
      have hjoin : joinSep sep (pq.1 :: pySplitMax sep m pq.2) =
          pq.1 ++ sep :: joinSep sep (pySplitMax sep m pq.2) := by
        cases hrec : pySplitMax sep m pq.2 with
        | nil => exact absurd hrec (pySplitMax_ne_nil sep m pq.2)
        | cons y ys => rfl
      rw [hjoin, ih pq.2, splitFirst_eq sep s pq.1 pq.2 hsf]

/-- C9: the output-stem computation of the professionalization stage is
    the identity, so the candidate output file before collision handling
    is always the input stem followed by "-spec.md" in the input file's
    directory. -/
theorem professionalize_output_stem_identity :
    ∀ parent stem : String,
      ProfessionalizerProcessor.output_stem stem = stem ∧
      ProfessionalizerProcessor.candidate_output parent stem =
        parent ++ "/" ++ stem ++ "-spec.md" := by
  intro parent stem
  have hstem : ProfessionalizerProcessor.output_stem stem = stem := by
    unfold ProfessionalizerProcessor.output_stem
    split
    · cases hsp : pySplitMax '_' 2 stem.data with
      | nil => rfl
      | cons a t1 =>
        cases t1 with
        | nil => rfl
        | cons b t2 =>
          cases t2 with
          | nil => rfl
          | cons c t3 =>
            cases t3 with
            | nil =>
              have := joinSep_pySplitMax '_' 2 stem.data
              rw [hsp] at this
              have hj : a ++ '_' :: (b ++ '_' :: c) = stem.data := this
              show String.mk (a ++ '_' :: (b ++ '_' :: c)) = stem
              rw [hj]
            | cons d t4 => rfl
    · rfl
  refine ⟨hstem, ?_⟩
  unfold ProfessionalizerProcessor.candidate_output
  rw [hstem]

/-- C5: for every existing spec file, detect_project applies the three
    rules of the specification in order with first match winning, over
    the 500-character window, and a registered Project: tag is preferred
    over any @ mention. -/
theorem detect_project_follows_spec_rules :
    ∀ (cache : List String) (content fileName : String),
      ProjectRouter.detect_project cache (some content) fileName =
        specDetect cache content fileName ∧
      (∀ nm, specRule1 cache (content.data.take 500) = some nm →
        ProjectRouter.detect_project cache (some content) fileName = some nm) := by
  intro cache content fileName
  have hAfter : detectAfterTag cache (content.data.take 500) fileName =
      (match specRule2 cache (content.data.take 500) with
       | some nm => some nm
       | none => specRule3 cache fileName) := by
    unfold detectAfterTag specRule2 specRule3 detectByFilename
    cases findMention (content.data.take 500) with
    | none => rfl
    | some m =>
      dsimp only
      by_cases h2 : cache.contains (String.mk m) = true
      · simp only [if_pos h2]
      · simp only [if_neg h2]
  constructor
  · show ProjectRouter.detect_project cache (some content) fileName =
      specDetect cache content fileName
    unfold ProjectRouter.detect_project specDetect specRule1
    dsimp only
    cases findProjectTag (content.data.take 500) with
    | none => exact hAfter
    | some n =>
      dsimp only
      by_cases h1 : cache.contains (String.mk n) = true
      · simp only [if_pos h1]
      · simp only [if_neg h1]
        exact hAfter
  · intro nm h
    unfold specRule1 at h
    unfold ProjectRouter.detect_project
    dsimp only
    cases htag : findProjectTag (content.data.take 500) with
    | none => rw [htag] at h; exact absurd h (by simp)
    | some n =>
      rw [htag] at h
      dsimp only at h ⊢
      by_cases h1 : cache.contains (String.mk n) = true
      · rw [if_pos h1] at h
        rw [if_pos h1]
        exact h
      · rw [if_neg h1] at h
        exact absurd h (by simp)

/-- Witness for C5 at a concrete spec: a registered Project: tag and a
    conflicting registered @ mention are both present, and detection
    returns the tag's project. -/
theorem detect_project_witness :
    ProjectRouter.detect_project ["alpha", "beta"]
      (some "Project: alpha\n@beta") "note.md" = some "alpha" :=
  (detect_project_follows_spec_rules ["alpha", "beta"]
    "Project: alpha\n@beta" "note.md").2 "alpha" (by decide)

theorem contains_iff_mem (l : List String) (a : String) :
    l.contains a = true ↔ a ∈ l := by
  simp

theorem pkeys_dictInsert_superset (st : PollerState) (k : String)
    (v : DownloadRecord) : ∀ i ∈ pkeys st, i ∈ pkeys (dictInsert st k v) := by
  intro i hi
  unfold dictInsert
  rcases List.mem_map.mp hi with ⟨e, he, hek⟩
  split
  · apply List.mem_map.mpr
    refine ⟨if e.1 == k then (k, v) else e, List.mem_map_of_mem _ he, ?_⟩
    by_cases hek' : e.1 == k
    · rw [if_pos hek']
      have : e.1 = k := by simpa using hek'
      rw [← hek, this]
    · rw [if_neg hek']
      exact hek
  · unfold pkeys
    rw [List.map_append]
    exact List.mem_append_left _ hi

theorem mem_pkeys_dictInsert (st : PollerState) (k : String)
    (v : DownloadRecord) : k ∈ pkeys (dictInsert st k v) := by
  unfold dictInsert
  split
  · rename_i hany
    rcases List.any_eq_true.mp hany with ⟨e, he, hek⟩
    apply List.mem_map.mpr
    refine ⟨if e.1 == k then (k, v) else e, List.mem_map_of_mem _ he, ?_⟩
    rw [if_pos hek]
  · unfold pkeys
    rw [List.map_append]
    exact List.mem_append_right _ (by simp)

theorem download_file_snd (dlOk : String → Bool) (now : String)
    (st : PollerState) (f : DriveFile) :
    (Poller.download_file dlOk now st f).2 = [f.id] := by
  unfold Poller.download_file
  split <;> rfl

theorem download_file_keys_mono (dlOk : String → Bool) (now : String)
    (st : PollerState) (f : DriveFile) :
    ∀ i ∈ pkeys st, i ∈ pkeys (Poller.download_file dlOk now st f).1 := by
  intro i hi
  unfold Poller.download_file
  split
  · exact pkeys_dictInsert_superset st f.id _ i hi
  · exact hi

theorem foldl_pollStep_snd (dlOk : String → Bool) (now : String) :
    ∀ (l : List DriveFile) (st : PollerState) (acc : List String),
      (l.foldl (pollStep dlOk now) (st, acc)).2 = acc ++ l.map (fun f => f.id) := by
  intro l
  induction l with
  | nil => intro st acc; simp
  | cons f fs ih =>
    intro st acc
    show (fs.foldl (pollStep dlOk now) (pollStep dlOk now (st, acc) f)).2 = _
    have hstep : pollStep dlOk now (st, acc) f =
        ((Poller.download_file dlOk now st f).1, acc ++ [f.id]) := by
      show ((Poller.download_file dlOk now st f).1,
        acc ++ (Poller.download_file dlOk now st f).2) = _
      rw [download_file_snd]
    rw [hstep, ih]
    simp

theorem foldl_pollStep_keys_mono (dlOk : String → Bool) (now : String) :
    ∀ (l : List DriveFile) (st : PollerState) (acc : List String),
      ∀ i ∈ pkeys st, i ∈ pkeys (l.foldl (pollStep dlOk now) (st, acc)).1 := by
  intro l
  induction l with
  | nil => intro st acc i hi; exact hi
  | cons f fs ih =>
    intro st acc i hi
    show i ∈ pkeys (fs.foldl (pollStep dlOk now) (pollStep dlOk now (st, acc) f)).1
    have : pollStep dlOk now (st, acc) f =
        ((Poller.download_file dlOk now st f).1, acc ++ [f.id]) := by
      show ((Poller.download_file dlOk now st f).1,
        acc ++ (Poller.download_file dlOk now st f).2) = _
      rw [download_file_snd]
    rw [this]
    exact ih _ _ i (download_file_keys_mono dlOk now st f i hi)

theorem foldl_pollStep_adds (dlOk : String → Bool) (now : String) :
    ∀ (l : List DriveFile) (st : PollerState) (acc : List String) (f : DriveFile),
      f ∈ l → dlOk f.id = true →
      f.id ∈ pkeys (l.foldl (pollStep dlOk now) (st, acc)).1 := by
  intro l
  induction l with
  | nil => intro st acc f hf; exact absurd hf (by simp)
  | cons g gs ih =>
    intro st acc f hf hok
    show f.id ∈ pkeys (gs.foldl (pollStep dlOk now) (pollStep dlOk now (st, acc) g)).1
    have hstep : pollStep dlOk now (st, acc) g =
        ((Poller.download_file dlOk now st g).1, acc ++ [g.id]) := by
      show ((Poller.download_file dlOk now st g).1,
        acc ++ (Poller.download_file dlOk now st g).2) = _
      rw [download_file_snd]
    rw [hstep]
    rcases List.mem_cons.mp hf with hfg | hftail
    · subst hfg
      apply foldl_pollStep_keys_mono
      unfold Poller.download_file
      rw [if_pos hok]
      exact mem_pkeys_dictInsert st f.id _
    · exact ih _ _ f hftail hok

/-- C1: in a poll cycle, every id already a key of the durable state at
    the start of the cycle receives no download; every issued download
    is for a listed file whose id is absent from the state; and a
    successful download adds its id to the state. -/
theorem poll_once_skips_known_ids :
    ∀ (dlOk : String → Bool) (now : String) (st : PollerState)
      (files : List DriveFile),
      (∀ i ∈ pkeys st, i ∉ (Poller.poll_once dlOk now st (some files)).2) ∧
      (∀ i ∈ (Poller.poll_once dlOk now st (some files)).2,
        i ∉ pkeys st ∧ ∃ f ∈ files, f.id = i) ∧
      (∀ f ∈ files, f.id ∉ pkeys st → dlOk f.id = true →
        f.id ∈ pkeys (Poller.poll_once dlOk now st (some files)).1) := by
  intro dlOk now st files
  have hdl : (Poller.poll_once dlOk now st (some files)).2 =
      (files.filter (fun f => !(pkeys st).contains f.id)).map (fun f => f.id) := by
    show ((files.filter (fun f => !(pkeys st).contains f.id)).foldl
        (pollStep dlOk now) (st, [])).2 = _
    rw [foldl_pollStep_snd]
    simp
  refine ⟨?_, ?_, ?_⟩
  · intro i hi hmem
    rw [hdl] at hmem
    rcases List.mem_map.mp hmem with ⟨f, hf, hfi⟩
    rcases List.mem_filter.mp hf with ⟨_, hnc⟩
    rw [hfi] at hnc
    simp only [Bool.not_eq_true'] at hnc
    have hc := (contains_iff_mem (pkeys st) i).mpr hi
    rw [hnc] at hc
    exact Bool.noConfusion hc
  · intro i hmem
    rw [hdl] at hmem
    rcases List.mem_map.mp hmem with ⟨f, hf, hfi⟩
    rcases List.mem_filter.mp hf with ⟨hfl, hnc⟩
    rw [hfi] at hnc
    simp only [Bool.not_eq_true'] at hnc
    constructor
    · intro hik
      have hc := (contains_iff_mem (pkeys st) i).mpr hik
      rw [hnc] at hc
      exact Bool.noConfusion hc
    · exact ⟨f, hfl, hfi⟩
  · intro f hf hnotin hok
    show f.id ∈ pkeys ((files.filter (fun f => !(pkeys st).contains f.id)).foldl
        (pollStep dlOk now) (st, [])).1
    apply foldl_pollStep_adds
    · apply List.mem_filter.mpr
      refine ⟨hf, ?_⟩
      simp only [Bool.not_eq_true']
      cases hc : (pkeys st).contains f.id
      · rfl
      · exact absurd ((contains_iff_mem _ _).mp hc) hnotin
    · exact hok

/-- Witness for C1: with one id already tracked and a listing holding
    that id and one new id, the tracked id gets no download and the new
    id enters the state. -/
theorem poll_once_skips_known_ids_witness :
    "idA" ∉ (Poller.poll_once (fun _ => true) "t2"
        [("idA", ⟨"a.m4a", "t1"⟩)] (some [⟨"idA", "a.m4a"⟩, ⟨"idB", "b.m4a"⟩])).2 ∧
    "idB" ∈ pkeys (Poller.poll_once (fun _ => true) "t2"
        [("idA", ⟨"a.m4a", "t1"⟩)] (some [⟨"idA", "a.m4a"⟩, ⟨"idB", "b.m4a"⟩])).1 :=
  ⟨(poll_once_skips_known_ids (fun _ => true) "t2" [("idA", ⟨"a.m4a", "t1"⟩)]
      [⟨"idA", "a.m4a"⟩, ⟨"idB", "b.m4a"⟩]).1 "idA" (by decide),
   (poll_once_skips_known_ids (fun _ => true) "t2" [("idA", ⟨"a.m4a", "t1"⟩)]
      [⟨"idA", "a.m4a"⟩, ⟨"idB", "b.m4a"⟩]).2.2 ⟨"idB", "b.m4a"⟩
      (by decide) (by decide) (by decide)⟩

/-- C2 counterexample: the loop started by Poller.start does not persist
    the state after every poll cycle.  In a run of two cycles followed
    by a graceful stop, the first completed cycle is followed by another
    cycle with no save in between, so the trace property asserted by the
    claim fails. -/
theorem start_does_not_save_each_cycle :
    savedAfterEachCycle (Poller.startRun [false, true]) = false := by
  decide

/-- C2 (amended): the in-memory state is persisted on shutdown of the
    loop, not after every poll cycle: a run of n+1 cycles ending in a
    graceful stop produces exactly the cycle events followed by the
    saves performed by stop (once from the signal handler, once from the
    finally block); and every persist writes the temporary file and then
    atomically renames it over the state file, so a crash at any point
    before the rename leaves the previous snapshot intact while a
    completed save installs the new one. -/
theorem start_saves_on_stop_atomically :
    (∀ n : Nat, Poller.startRun (List.replicate n false ++ [true]) =
      List.replicate (n + 1) PollerEv.cycle ++ [PollerEv.save, PollerEv.save]) ∧
    (∀ (payload : String) (fs : StateFS) (cp : CrashPoint),
      cp ≠ CrashPoint.done →
      (Poller.save_state payload fs cp).stateFile = fs.stateFile) ∧
    (∀ (payload : String) (fs : StateFS),
      (Poller.save_state payload fs CrashPoint.done).stateFile = some payload) := by
  refine ⟨?_, ?_, ?_⟩
  · intro n
    induction n with
    | zero => rfl
    | succ m ih =>
      show PollerEv.cycle :: Poller.startRun (List.replicate m false ++ [true]) = _
      rw [ih]
      simp [List.replicate_succ]
  · intro payload fs cp hcp
    cases cp with
    | beforeWrite => rfl
    | afterWrite => rfl
    | done => exact absurd rfl hcp
  · intro payload fs
    rfl

/-- Witness for the amended C2 theorem: a crash after writing the
    temporary file but before the rename leaves the old snapshot in the
    state file. -/
theorem start_saves_on_stop_atomically_witness :
    (Poller.save_state "new" ⟨some "old", none⟩ CrashPoint.afterWrite).stateFile =
      some "old" :=
  start_saves_on_stop_atomically.2.1 "new" ⟨some "old", none⟩
    CrashPoint.afterWrite (by decide)

/-- C3 counterexample: a call on a nonexistent input path appends no
    history entry at all, where the claim demands exactly one (with a
    failed or error status).  Starting from an empty history, the
    history after the call is still empty. -/
theorem pipeline_missing_input_appends_no_entry :
    (ProcessingPipeline.process (fun _ => false) [] "/nonexistent/file.m4a"
      []).2.length ≠ 1 := by
  decide

/-- C3 (amended): a process call on an existing input path appends
    exactly one history entry, whatever the stages return or raise; a
    call on a nonexistent path returns no output before invoking any
    stage and leaves the history untouched. -/
theorem pipeline_appends_one_entry_iff_input_exists :
    ∀ (e : String → Bool) (procs : List (String × (String → PResult)))
      (path : String) (hist : List HistoryEntry),
      (e path = true ∧
        ∃ entry, (ProcessingPipeline.process e procs path hist).2 = hist ++ [entry]) ∨
      (e path = false ∧
        ProcessingPipeline.process e procs path hist = (none, hist)) := by
  intro e procs path hist
  cases h : e path with
  | true =>
    left
    refine ⟨rfl, ⟨⟨path, (runStages procs path []).stages,
      (runStages procs path []).status, (runStages procs path []).error,
      (runStages procs path []).output⟩, ?_⟩⟩
    unfold ProcessingPipeline.process
    rw [if_pos h]
  | false =>
    right
    refine ⟨rfl, ?_⟩
    unfold ProcessingPipeline.process
    rw [if_neg (by rw [h]; exact Bool.noConfusion)]

/-- C10: every chat message rejected by the filters of _message_to_file
    (no author identifier, unauthorized or bot author, threaded reply
    whose anchor differs from its own timestamp, or text empty after
    trimming) yields no SourceFile and writes no file to the inbox. -/
theorem message_to_file_rejected_writes_nothing :
    ∀ (authorized : List String) (inboxDir : String)
      (userRealName fmtIso fmtSafe : String → String)
      (msg : SlackMsg) (channelId channelName : String) (writeOk : Bool),
      (msg.user = none →
        SlackSource.message_to_file authorized inboxDir userRealName fmtIso
          fmtSafe msg channelId channelName writeOk = (none, [])) ∧
      (∀ uid, msg.user = some uid →
        SlackSource.is_authorized authorized uid = false →
        SlackSource.message_to_file authorized inboxDir userRealName fmtIso
          fmtSafe msg channelId channelName writeOk = (none, [])) ∧
      (∀ uid tts, msg.user = some uid → msg.thread_ts = some tts →
        tts ≠ msg.ts →
        SlackSource.message_to_file authorized inboxDir userRealName fmtIso
          fmtSafe msg channelId channelName writeOk = (none, [])) ∧
      (pyStrip msg.text = "" →
        SlackSource.message_to_file authorized inboxDir userRealName fmtIso
          fmtSafe msg channelId channelName writeOk = (none, [])) := by
  intro authorized inboxDir userRealName fmtIso fmtSafe msg channelId channelName writeOk
  refine ⟨?_, ?_, ?_, ?_⟩
  · intro h
    unfold SlackSource.message_to_file
    rw [h]
  · intro uid hu hauth
    unfold SlackSource.message_to_file
    rw [hu]
    dsimp only
    rw [if_pos (by simp [hauth])]
  · intro uid tts hu ht hne
    unfold SlackSource.message_to_file
    rw [hu]
    dsimp only
    by_cases hrej : uid.isEmpty || !SlackSource.is_authorized authorized uid
    · rw [if_pos hrej]
    · rw [if_neg hrej, ht]
      rw [if_pos (by simp [bne, hne])]
  · intro htext
    unfold SlackSource.message_to_file
    cases hu : msg.user with
    | none => rfl
    | some uid =>
      dsimp only
      by_cases hrej : uid.isEmpty || !SlackSource.is_authorized authorized uid
      · rw [if_pos hrej]
      · rw [if_neg hrej]
        by_cases hth : (match msg.thread_ts with
          | some tts => tts != msg.ts
          | none => false) = true
        · rw [if_pos hth]
        · rw [if_neg hth]
          rw [if_pos (by simp [htext])]

theorem fsRead_write_self (fs : FS) (p c : String) :
    fsRead (fsWrite fs p c) p = some c := by
  induction fs with
  | nil => simp [fsWrite, fsRead]
  | cons e rest ih =>
    unfold fsWrite
    by_cases h : (e.1 == p) = true
    · rw [if_pos h]
      simp [fsRead]
    · rw [if_neg h]
      have h' : (e.1 == p) = false := by simpa using h
      unfold fsRead at ih ⊢
      simp only [List.find?_cons, h']
      exact ih

theorem fsRead_write_ne (fs : FS) (p c q : String) (h : q ≠ p) :
    fsRead (fsWrite fs p c) q = fsRead fs q := by
  have hpq : (p == q) = false := by
    simp only [beq_eq_false_iff_ne, ne_eq]
    exact fun hq => h hq.symm
  induction fs with
  | nil => simp [fsWrite, fsRead, hpq]
  | cons e rest ih =>
    unfold fsWrite
    by_cases he : (e.1 == p) = true
    · rw [if_pos he]
      have he1 : e.1 = p := by simpa using he
      unfold fsRead
      simp only [List.find?_cons, hpq, he1]
    · rw [if_neg he]
      unfold fsRead at ih ⊢
      by_cases heq : (e.1 == q) = true
      · simp only [List.find?_cons, heq]
      · have heq' : (e.1 == q) = false := by simpa using heq
        simp only [List.find?_cons, heq']
        exact ih

theorem fsRead_remove_ne (fs : FS) (p q : String) (h : q ≠ p) :
    fsRead (fsRemove fs p) q = fsRead fs q := by
  induction fs with
  | nil => simp [fsRemove, fsRead]
  | cons e rest ih =>
    unfold fsRemove at ih ⊢
    by_cases he : (e.1 == p) = true
    · rw [List.filter_cons]
      have he1 : e.1 = p := by simpa using he
      have heq : (e.1 == q) = false := by
        simp only [beq_eq_false_iff_ne, ne_eq, he1]
        exact fun hq => h hq.symm
      simp only [he, Bool.not_true, if_false]
      unfold fsRead
      simp only [List.find?_cons, heq]
      exact ih
    · rw [List.filter_cons]
      have he' : (e.1 == p) = false := by simpa using he
      simp only [he', Bool.not_false, if_true]
      unfold fsRead at ih ⊢
      by_cases heq : (e.1 == q) = true
      · simp only [List.find?_cons, heq]
      · have heq' : (e.1 == q) = false := by simpa using heq
        simp only [List.find?_cons, heq']
        exact ih

theorem fsExists_remove_self (fs : FS) (p : String) :
    fsExists (fsRemove fs p) p = false := by
  induction fs with
  | nil => rfl
  | cons e rest ih =>
    unfold fsRemove at ih ⊢
    rw [List.filter_cons]
    by_cases he : (e.1 == p) = true
    · simp only [he, Bool.not_true, if_false]
      exact ih
    · have he' : (e.1 == p) = false := by simpa using he
      simp only [he', Bool.not_false, if_true]
      unfold fsExists at ih ⊢
      simp only [List.any_cons, he', Bool.false_or]
      exact ih

theorem fsExists_iff_read (fs : FS) (p : String) :
    fsExists fs p = true ↔ ∃ c, fsRead fs p = some c := by
  induction fs with
  | nil => simp [fsExists, fsRead]
  | cons e rest ih =>
    unfold fsExists fsRead at ih ⊢
    by_cases h : (e.1 == p) = true
    · simp [List.any_cons, List.find?_cons, h]
    · have h' : (e.1 == p) = false := by simpa using h
      simp only [List.any_cons, List.find?_cons, h', Bool.false_or]
      exact ih

theorem fsCopy_eq_write (fs : FS) (src dst c : String)
    (h : fsRead fs src = some c) : fsCopy fs src dst = fsWrite fs dst c := by
  unfold fsCopy
  rw [h]

theorem collisionFrom_spec (fs : FS) (dir stem sfx : String) :
    ∀ (fuel counter : Nat) (res : String),
      collisionFrom fs dir stem sfx fuel counter = some res →
      fsExists fs res = false ∧ ∃ t, res = pjoin dir t := by
  intro fuel
  induction fuel with
  | zero => intro counter res h; exact absurd h (by simp [collisionFrom])
  | succ n ih =>
    intro counter res h
    unfold collisionFrom at h
    dsimp only at h
    by_cases hex : fsExists fs (pjoin dir (stem ++ "_" ++ toString counter ++ sfx)) = true
    · rw [if_pos hex] at h
      exact ih _ res h
    · rw [if_neg hex] at h
      injection h with h
      subst h
      exact ⟨by simpa using hex, ⟨_, rfl⟩⟩

theorem chooseFree_spec (fs : FS) (dir nm stem sfx : String) (fuel : Nat)
    (res : String) (h : chooseFree fs dir nm stem sfx fuel = some res) :
    fsExists fs res = false ∧ ∃ t, res = pjoin dir t := by
  unfold chooseFree at h
  dsimp only at h
  by_cases hex : fsExists fs (pjoin dir nm) = true
  · rw [if_pos hex] at h
    exact collisionFrom_spec fs dir stem sfx fuel 1 res h
  · rw [if_neg hex] at h
    injection h with h
    subst h
    exact ⟨by simpa using hex, ⟨nm, rfl⟩⟩

theorem bead_create_ok (fs : FS) (pp sf t d : String) (r : SubprocResult) :
    ∃ v, BeadCreator.create fs pp sf t d r = Except.ok v := by
  unfold BeadCreator.create
  by_cases h1 : (!fsExists fs (pjoin pp ".beads")) = true
  · rw [if_pos h1]
    exact ⟨none, rfl⟩
  · rw [if_neg h1]
    by_cases h2 : (!fsExists fs sf) = true
    · rw [if_pos h2]
      exact ⟨none, rfl⟩
    · rw [if_neg h2]
      cases r with
      | completed code out err =>
        by_cases h3 : (code == 0) = true
        · exact ⟨some (extractBeadId (out ++ err)), by simp [runBead, h3]⟩
        · exact ⟨none, by simp [runBead, h3]⟩
      | timeout => exact ⟨none, rfl⟩
      | notFound => exact ⟨none, rfl⟩
      | raisedOther m => exact ⟨none, rfl⟩

theorem create_bead_req (fs : FS) (pp sf src : String) :
    ∃ req, ∀ r, ∃ v,
      RoutingProcessor.create_bead_for_spec fs pp sf src r = Except.ok (v, req) := by
  by_cases h1 : (!fsExists fs (pjoin pp ".beads")) = true
  · refine ⟨none, fun r => ⟨none, ?_⟩⟩
    unfold RoutingProcessor.create_bead_for_spec
    rw [if_pos h1]
  · refine ⟨some ⟨beadTitleFor sf, beadDescriptionFor fs sf src⟩, fun r => ?_⟩
    obtain ⟨v, hv⟩ := bead_create_ok fs pp sf (beadTitleFor sf)
      (beadDescriptionFor fs sf src) r
    refine ⟨v, ?_⟩
    unfold RoutingProcessor.create_bead_for_spec
    rw [if_neg h1, hv]

theorem process_eq_missing (env : RouterEnv) (fuel : Nat) (fs : FS)
    (spec source : String) (r : SubprocResult) (h : fsExists fs spec = false) :
    RoutingProcessor.process env fuel fs spec source r = some (none, fs, none) := by
  unfold RoutingProcessor.process
  rw [if_pos (by simp [h])]

theorem process_eq_present (env : RouterEnv) (fuel : Nat) (fs : FS)
    (spec source : String) (r : SubprocResult) (h : fsExists fs spec = true) :
    RoutingProcessor.process env fuel fs spec source r =
      (match chooseFree fs (ProjectRouter.get_inbox_path env
          (ProjectRouter.detect_project env.names (fsRead fs spec) (baseName spec)))
          (baseName spec) (pathStem spec) (pathSuffix spec) fuel with
       | none => none
       | some target =>
         match chooseFree (fsCopy fs spec target)
             (ProjectRouter.get_archive_path env none)
             (baseName spec) (pathStem spec) (pathSuffix spec) fuel with
         | none => none
         | some arch =>
           match RoutingProcessor.create_bead_for_spec
               (fsMove (fsCopy fs spec target) spec arch)
               (projectPathFor env (ProjectRouter.detect_project env.names
                 (fsRead fs spec) (baseName spec)))
               target source r with
           | Except.ok br =>
             some (some target, fsMove (fsCopy fs spec target) spec arch, br.2)
           | Except.error _ =>
             some (none, fsMove (fsCopy fs spec target) spec arch, none)) := by
  unfold RoutingProcessor.process
  rw [if_neg (by simp [h])]

/-- Witness for C10: a threaded reply by an authorized user is dropped
    without writing anything. -/
theorem process_success_shape (env : RouterEnv) (fuel : Nat) (fs : FS)
    (spec source : String) (r : SubprocResult) (routed : String) (fs' : FS)
    (req : Option BeadRequest)
    (h : RoutingProcessor.process env fuel fs spec source r =
      some (some routed, fs', req)) :
    fsExists fs spec = true ∧
    chooseFree fs (ProjectRouter.get_inbox_path env
        (ProjectRouter.detect_project env.names (fsRead fs spec) (baseName spec)))
      (baseName spec) (pathStem spec) (pathSuffix spec) fuel = some routed ∧
    ∃ arch, chooseFree (fsCopy fs spec routed)
        (ProjectRouter.get_archive_path env none)
        (baseName spec) (pathStem spec) (pathSuffix spec) fuel = some arch ∧
      fs' = fsMove (fsCopy fs spec routed) spec arch := by
  cases hfe : fsExists fs spec with
  | false =>
    rw [process_eq_missing env fuel fs spec source r hfe] at h
    simp at h
  | true =>
    rw [process_eq_present env fuel fs spec source r hfe] at h
    refine ⟨rfl, ?_⟩
    cases hc1 : chooseFree fs (ProjectRouter.get_inbox_path env
        (ProjectRouter.detect_project env.names (fsRead fs spec) (baseName spec)))
        (baseName spec) (pathStem spec) (pathSuffix spec) fuel with
    | none => rw [hc1] at h; simp at h
    | some target =>
      rw [hc1] at h
      dsimp only at h
      cases hc2 : chooseFree (fsCopy fs spec target)
          (ProjectRouter.get_archive_path env none)
          (baseName spec) (pathStem spec) (pathSuffix spec) fuel with
      | none => rw [hc2] at h; simp at h
      | some arch =>
        rw [hc2] at h
        dsimp only at h
        obtain ⟨req0, hreq⟩ := create_bead_req
          (fsMove (fsCopy fs spec target) spec arch)
          (projectPathFor env
            (ProjectRouter.detect_project env.names (fsRead fs spec) (baseName spec)))
          target source
        obtain ⟨v, hv⟩ := hreq r
        rw [hv] at h
        dsimp only at h
        simp only [Option.some.injEq, Prod.mk.injEq] at h
        obtain ⟨hts, hfs, hrq⟩ := h
        have hts' : target = routed := by simpa using hts
        subst hts'
        exact ⟨rfl, arch, hc2, hfs.symm⟩

theorem process_success_facts (env : RouterEnv) (fuel : Nat) (fs : FS)
    (spec source : String) (r : SubprocResult) (routed : String) (fs' : FS)
    (req : Option BeadRequest)
    (h : RoutingProcessor.process env fuel fs spec source r =
      some (some routed, fs', req)) :
    fsRead fs' routed = fsRead fs spec ∧
    fsExists fs' routed = true ∧
    fsExists fs' spec = false ∧
    (∃ t, routed = pjoin (ProjectRouter.get_inbox_path env
      (ProjectRouter.detect_project env.names (fsRead fs spec) (baseName spec))) t) ∧
    (∃ t2 c, fsRead fs spec = some c ∧
      fsRead fs' (pjoin (ProjectRouter.get_archive_path env none) t2) = some c) := by
  obtain ⟨hex, hc1, arch, hc2, hfs'⟩ :=
    process_success_shape env fuel fs spec source r routed fs' req h
  obtain ⟨c, hc⟩ := (fsExists_iff_read fs spec).mp hex
  obtain ⟨hfree1, t1, ht1⟩ := chooseFree_spec _ _ _ _ _ _ _ hc1
  have hne_rs : routed ≠ spec := by
    intro hrs
    rw [hrs] at hfree1
    rw [hfree1] at hex
    exact Bool.noConfusion hex
  have hcopy1 : fsCopy fs spec routed = fsWrite fs routed c :=
    fsCopy_eq_write fs spec routed c hc
  have hread1r : fsRead (fsCopy fs spec routed) routed = some c := by
    rw [hcopy1]
    exact fsRead_write_self fs routed c
  have hread1s : fsRead (fsCopy fs spec routed) spec = some c := by
    rw [hcopy1, fsRead_write_ne fs routed c spec (fun hsr => hne_rs hsr.symm)]
    exact hc
  obtain ⟨hfree2, t2, ht2⟩ := chooseFree_spec _ _ _ _ _ _ _ hc2
  have hex1r : fsExists (fsCopy fs spec routed) routed = true :=
    (fsExists_iff_read _ _).mpr ⟨c, hread1r⟩
  have hex1s : fsExists (fsCopy fs spec routed) spec = true :=
    (fsExists_iff_read _ _).mpr ⟨c, hread1s⟩
  have hne_ar : arch ≠ routed := by
    intro har
    rw [har] at hfree2
    rw [hfree2] at hex1r
    exact Bool.noConfusion hex1r
  have hne_as : arch ≠ spec := by
    intro har
    rw [har] at hfree2
    rw [hfree2] at hex1s
    exact Bool.noConfusion hex1s
  have hcopy2 : fsCopy (fsCopy fs spec routed) spec arch =
      fsWrite (fsCopy fs spec routed) arch c :=
    fsCopy_eq_write (fsCopy fs spec routed) spec arch c hread1s
  have hfs2 : fs' = fsRemove (fsWrite (fsCopy fs spec routed) arch c) spec := by
    rw [hfs']
    unfold fsMove
    rw [hcopy2]
  have hreadr : fsRead fs' routed = some c := by
    rw [hfs2, fsRead_remove_ne _ _ _ hne_rs,
      fsRead_write_ne _ _ _ _ (fun hra => hne_ar hra.symm)]
    exact hread1r
  have hreada : fsRead fs' arch = some c := by
    rw [hfs2, fsRead_remove_ne _ _ _ hne_as]
    exact fsRead_write_self _ arch c
  refine ⟨?_, ?_, ?_, ?_, ?_⟩
  · rw [hreadr, hc]
  · exact (fsExists_iff_read _ _).mpr ⟨c, hreadr⟩
  · rw [hfs2]
    exact fsExists_remove_self _ spec
  · exact ⟨t1, ht1⟩
  · exact ⟨t2, c, hc, by rw [← ht2]; exact hreada⟩

/-- C4 counterexample: on a spec in the home inbox for which detection
    finds no match, RoutingProcessor.process does not leave the file
    untouched: it copies the spec into the home inbox under a
    counter-suffixed name, moves the original into the home archive, and
    returns the renamed copy; the original path no longer exists. -/
theorem routing_no_match_moves_and_renames :
    RoutingProcessor.process ⟨"h", []⟩ 10
        [("h/dev_notes/inbox/generic-spec.md", "# Generic Spec\n\nNo project specified")]
        "h/dev_notes/inbox/generic-spec.md" "test" (SubprocResult.completed 0 "" "") =
      some (some "h/dev_notes/inbox/generic-spec_1.md",
        [("h/dev_notes/inbox/generic-spec_1.md", "# Generic Spec\n\nNo project specified"),
         ("h/dev_notes/inbox-archive/generic-spec.md", "# Generic Spec\n\nNo project specified")],
        none) ∧
    fsExists
        [("h/dev_notes/inbox/generic-spec_1.md", "# Generic Spec\n\nNo project specified"),
         ("h/dev_notes/inbox-archive/generic-spec.md", "# Generic Spec\n\nNo project specified")]
        "h/dev_notes/inbox/generic-spec.md" = false := by
  decide

/-- C4 (amended): for every existing spec on which project detection
    finds no match, process files the spec to the home project itself:
    the returned routed path lies in the home inbox and carries the
    spec's content, the original path is gone, and a file with the
    original content sits in the home archive. -/
theorem routing_no_match_files_to_home :
    ∀ (env : RouterEnv) (fuel : Nat) (fs : FS) (spec source : String)
      (r : SubprocResult) (routed : String) (fs' : FS) (req : Option BeadRequest),
      ProjectRouter.detect_project env.names (fsRead fs spec) (baseName spec) = none →
      RoutingProcessor.process env fuel fs spec source r =
        some (some routed, fs', req) →
      (∃ t, routed = pjoin (ProjectRouter.get_inbox_path env none) t) ∧
      fsRead fs' routed = fsRead fs spec ∧
      fsExists fs' spec = false ∧
      (∃ t2 c, fsRead fs spec = some c ∧
        fsRead fs' (pjoin (ProjectRouter.get_archive_path env none) t2) = some c) := by
  intro env fuel fs spec source r routed fs' req hdet h
  obtain ⟨hread, hexr, hexs, ⟨t, ht⟩, harch⟩ :=
    process_success_facts env fuel fs spec source r routed fs' req h
  rw [hdet] at ht
  exact ⟨⟨t, ht⟩, hread, hexs, harch⟩

/-- Witness for the amended C4 theorem at the concrete no-match run of
    the counterexample. -/
theorem routing_no_match_files_to_home_witness :
    (∃ t, "h/dev_notes/inbox/generic-spec_1.md" =
      pjoin (ProjectRouter.get_inbox_path ⟨"h", []⟩ none) t) ∧
    fsRead
        [("h/dev_notes/inbox/generic-spec_1.md", "# Generic Spec\n\nNo project specified"),
         ("h/dev_notes/inbox-archive/generic-spec.md", "# Generic Spec\n\nNo project specified")]
        "h/dev_notes/inbox/generic-spec_1.md" =
      fsRead [("h/dev_notes/inbox/generic-spec.md", "# Generic Spec\n\nNo project specified")]
        "h/dev_notes/inbox/generic-spec.md" ∧
    fsExists
        [("h/dev_notes/inbox/generic-spec_1.md", "# Generic Spec\n\nNo project specified"),
         ("h/dev_notes/inbox-archive/generic-spec.md", "# Generic Spec\n\nNo project specified")]
        "h/dev_notes/inbox/generic-spec.md" = false ∧
    (∃ t2 c, fsRead
        [("h/dev_notes/inbox/generic-spec.md", "# Generic Spec\n\nNo project specified")]
        "h/dev_notes/inbox/generic-spec.md" = some c ∧
      fsRead
        [("h/dev_notes/inbox/generic-spec_1.md", "# Generic Spec\n\nNo project specified"),
         ("h/dev_notes/inbox-archive/generic-spec.md", "# Generic Spec\n\nNo project specified")]
        (pjoin (ProjectRouter.get_archive_path ⟨"h", []⟩ none) t2) = some c) :=
  routing_no_match_files_to_home ⟨"h", []⟩ 10
    [("h/dev_notes/inbox/generic-spec.md", "# Generic Spec\n\nNo project specified")]
    "h/dev_notes/inbox/generic-spec.md" "test" (SubprocResult.completed 0 "" "")
    "h/dev_notes/inbox/generic-spec_1.md"
    [("h/dev_notes/inbox/generic-spec_1.md", "# Generic Spec\n\nNo project specified"),
     ("h/dev_notes/inbox-archive/generic-spec.md", "# Generic Spec\n\nNo project specified")]
    none (by decide) (by decide)

/-- C6: the outcome of RoutingProcessor.process does not depend on the
    fate of the tracking-issue subprocess (absent CLI, timeout, nonzero
    exit, success, or the silent skip without a marker directory yield
    the same returned path and filesystem), and BeadCreator.create
    catches every exception, so issue creation can never fail the
    routing operation. -/
theorem routing_unaffected_by_bead_outcome :
    ∀ (env : RouterEnv) (fuel : Nat) (fs : FS) (spec source : String)
      (r r' : SubprocResult),
      RoutingProcessor.process env fuel fs spec source r =
        RoutingProcessor.process env fuel fs spec source r' ∧
      (∀ (fsx : FS) (pp sf t d : String),
        ∃ v, BeadCreator.create fsx pp sf t d r = Except.ok v) := by
  intro env fuel fs spec source r r'
  constructor
  · cases hfe : fsExists fs spec with
    | false =>
      rw [process_eq_missing env fuel fs spec source r hfe,
        process_eq_missing env fuel fs spec source r' hfe]
    | true =>
      rw [process_eq_present env fuel fs spec source r hfe,
        process_eq_present env fuel fs spec source r' hfe]
      cases hc1 : chooseFree fs (ProjectRouter.get_inbox_path env
          (ProjectRouter.detect_project env.names (fsRead fs spec) (baseName spec)))
          (baseName spec) (pathStem spec) (pathSuffix spec) fuel with
      | none => rfl
      | some target =>
        dsimp only
        cases hc2 : chooseFree (fsCopy fs spec target)
            (ProjectRouter.get_archive_path env none)
            (baseName spec) (pathStem spec) (pathSuffix spec) fuel with
        | none => rfl
        | some arch =>
          dsimp only
          obtain ⟨req0, hreq⟩ := create_bead_req
            (fsMove (fsCopy fs spec target) spec arch)
            (projectPathFor env
              (ProjectRouter.detect_project env.names (fsRead fs spec) (baseName spec)))
            target source
          obtain ⟨v, hv⟩ := hreq r
          obtain ⟨v', hv'⟩ := hreq r'
          rw [hv, hv']
  · intro fsx pp sf t d
    exact bead_create_ok fsx pp sf t d r

/-- C7 counterexample: for a spec whose first line is blank and whose
    second line is not, the description handed to the issue creator is
    the generated fallback, not the first non-empty line that the claim
    prescribes. -/
theorem bead_description_ignores_later_lines :
    (RoutingProcessor.create_bead_for_spec
        [("p/.beads", ""), ("p/dev_notes/inbox/s.md", "\nReal title")]
        "p" "p/dev_notes/inbox/s.md" "gdrive" (SubprocResult.completed 0 "" "")).toOption =
      some (some "created",
        some ⟨"Process inbox item: s", "Auto-generated from pigeon (gdrive)"⟩) ∧
    claimDescription (some "\nReal title") "gdrive" = "Real title" ∧
    ("Auto-generated from pigeon (gdrive)" : String) ≠ "Real title" := by
  decide

/-- C7 (amended): whenever the target project has the marker directory,
    the issue request is made with title "Process inbox item: " followed
    by the spec stem, and with the spec file's first line, stripped and
    truncated to 100 characters, as description, falling back to the
    generated text naming the source tag when that first line strips to
    empty or the file cannot be read. -/
theorem bead_request_title_and_description :
    ∀ (fs : FS) (pp sf src : String) (r : SubprocResult),
      fsExists fs (pjoin pp ".beads") = true →
      ∃ v, RoutingProcessor.create_bead_for_spec fs pp sf src r =
        Except.ok (v, some ⟨"Process inbox item: " ++ pathStem sf,
          match fsRead fs sf with
          | some content =>
            if (pyStrip (takeFirstLine content)).isEmpty then
              "Auto-generated from pigeon (" ++ src ++ ")"
            else String.mk ((pyStrip (takeFirstLine content)).data.take 100)
          | none => "Auto-generated from pigeon (" ++ src ++ ")"⟩) := by
  intro fs pp sf src r h
  have h1 : (!fsExists fs (pjoin pp ".beads")) = false := by simp [h]
  obtain ⟨v, hv⟩ := bead_create_ok fs pp sf (beadTitleFor sf)
    (beadDescriptionFor fs sf src) r
  refine ⟨v, ?_⟩
  unfold RoutingProcessor.create_bead_for_spec
  rw [if_neg (by simp [h1]), hv]
  rfl

/-- Witness for the amended C7 theorem: a spec with a plain first line
    produces the prescribed title and the truncated first line as
    description. -/
theorem bead_request_title_and_description_witness :
    ∃ v, RoutingProcessor.create_bead_for_spec
        [("p/.beads", ""), ("p/dev_notes/inbox/t.md", "Fix the gate\nmore text")]
        "p" "p/dev_notes/inbox/t.md" "slack" (SubprocResult.timeout) =
      Except.ok (v, some ⟨"Process inbox item: t", "Fix the gate"⟩) := by
  obtain ⟨v, hv⟩ := bead_request_title_and_description
    [("p/.beads", ""), ("p/dev_notes/inbox/t.md", "Fix the gate\nmore text")]
    "p" "p/dev_notes/inbox/t.md" "slack" SubprocResult.timeout (by decide)
  refine ⟨v, ?_⟩
  rw [hv]
  rfl

theorem message_to_file_rejected_witness :
    SlackSource.message_to_file ["U1"] "inbox" id id id
      ⟨some "U1", some "100.0", "200.0", "hello"⟩ "C9" "general" true =
      (none, []) :=
  (message_to_file_rejected_writes_nothing ["U1"] "inbox" id id id
    ⟨some "U1", some "100.0", "200.0", "hello"⟩ "C9" "general" true).2.2.1
    "U1" "100.0" rfl rfl (by decide)

end Pigeon
